import Mathlib

/-!
Verification development for the comic-export-service repository.

The service assembles remote comic page images into a CBZ archive or a
PDF document, behind a bounded-concurrency in-process job queue, and
serves finished artifacts from an in-memory token store with a 24 hour
expiry horizon.  The source ships several near-duplicate variants of the
same design; where variants differ observably, each variant is embedded
under its own name:

- `generateCBZ002`   : the CBZ emission order of src/unnamed/part_002
  (covers, page-0 substitution, pages filtered to number > 0 and sorted
  ascending, back cover), with the `fileIndex` counter threaded exactly
  as in the source.
- `generateCBZIndexJs` : the CBZ emission order of the first
  `generateCBZ` in src/index.js (no sort, page 0 skipped).
- `generateCBZ000`   : the CBZ emission order of src/unnamed/part_000
  (no sort, page 0 not skipped).
- `ExportQueue` of part_002 as a state machine (`qStep`, `runQ`).
- the download endpoint of src/index.js and of src/unnamed/part_003
  (`downloadIndexJs`, `downloadPart003`) over an association-list model
  of the `exportFiles` map.
- the submission validation of part_002 (`validExport`, `postExport`).
- `sortPanels` of part_002 (longstrip panel ordering).
-/

/-- JavaScript truthiness of an optional string field: `undefined` and
the empty string are falsy. -/
def jsTruthy : Option String → Bool
  | none => false
  | some s => s ≠ ""

/-- `String.prototype.padStart(3, "0")`. -/
def padStart3 (s : String) : String :=
  ⟨List.replicate (3 - s.length) '0' ++ s.data⟩

/-- One page item of a job description: `{ page_number, image_url }`. -/
structure PageItem where
  page_number : Int
  image_url : String
deriving DecidableEq

/-- The `covers` object: `{ comic_cover?, chapter_cover?, back_cover? }`. -/
structure CoverSet where
  comic_cover : Option String
  chapter_cover : Option String
  back_cover : Option String
deriving DecidableEq

/-- Which slot an emitted archive member fills. -/
inductive Label
  | comicCover
  | chapterCover
  | page (n : Int)
  | backCover
deriving DecidableEq

/-- One emitted archive member: file name, slot, source url, and the
value of the `fileIndex` counter at the moment of the append. -/
structure Entry where
  name : String
  label : Label
  url : String
  index : Nat
deriving DecidableEq

/-- Member name in part_002: padded index, slot text, `.png`. -/
def mkName002 (i : Nat) (slot : String) : String :=
  padStart3 (Nat.repr i) ++ "_" ++ slot ++ ".png"

/-- Member name in src/index.js and part_000: padded index, slot text,
`.jpg`. -/
def mkNameJpg (i : Nat) (slot : String) : String :=
  padStart3 (Nat.repr i) ++ "_" ++ slot ++ ".jpg"

/-- Sort key of part_002: `(a, b) => a.page_number - b.page_number`,
read as the ordering it induces. -/
def pageLe (a b : PageItem) : Prop :=
  a.page_number ≤ b.page_number

instance : DecidableRel pageLe :=
  fun a b => inferInstanceAs (Decidable (a.page_number ≤ b.page_number))

instance : IsTotal PageItem pageLe :=
  ⟨fun a b => Int.le_total a.page_number b.page_number⟩

instance : IsTrans PageItem pageLe :=
  ⟨fun _ _ _ h₁ h₂ => Int.le_trans h₁ h₂⟩

/-- part_002: `pages.filter(p => p.page_number > 0 && p.image_url)
.sort((a, b) => a.page_number - b.page_number)`; JavaScript sort is
stable, modelled by insertion sort. -/
def regularPages002 (pages : List PageItem) : List PageItem :=
  List.insertionSort pageLe
    (pages.filter fun p => decide (0 < p.page_number) && decide (p.image_url ≠ ""))

/-- part_002 leading-cover block: append `NNN_comic_cover.png` when
`covers.comic_cover` is truthy, advancing `fileIndex`. -/
def leadingSeg (covers : CoverSet) (i : Nat) : List Entry × Nat :=
  if jsTruthy covers.comic_cover then
    ([⟨mkName002 i "comic_cover", .comicCover, covers.comic_cover.getD "", i⟩], i + 1)
  else ([], i)

/-- part_002 chapter-cover block from `covers.chapter_cover`. -/
def chapterSeg (covers : CoverSet) (i : Nat) : List Entry × Nat :=
  if jsTruthy covers.chapter_cover then
    ([⟨mkName002 i "chapter_cover", .chapterCover, covers.chapter_cover.getD "", i⟩], i + 1)
  else ([], i)

/-- part_002 page-0 block: `pages.find(p => p.page_number === 0)` is
emitted in the chapter-cover slot when its url is truthy and
`covers.chapter_cover` is falsy. -/
def page0Seg (pages : List PageItem) (covers : CoverSet) (i : Nat) : List Entry × Nat :=
  match pages.find? (fun p => p.page_number == 0) with
  | some p =>
      if p.image_url ≠ "" ∧ jsTruthy covers.chapter_cover = false then
        ([⟨mkName002 i "chapter_cover", .chapterCover, p.image_url, i⟩], i + 1)
      else ([], i)
  | none => ([], i)

/-- part_002 regular-page loop: one member per page, `fileIndex`
incremented after each append. -/
def pagesSeg : List PageItem → Nat → List Entry × Nat
  | [], i => ([], i)
  | p :: rest, i =>
      let done := pagesSeg rest (i + 1)
      (⟨mkName002 i ("page_" ++ toString p.page_number), .page p.page_number, p.image_url, i⟩ :: done.1,
       done.2)

/-- part_002 back-cover block. -/
def backSeg (covers : CoverSet) (i : Nat) : List Entry :=
  if jsTruthy covers.back_cover then
    [⟨mkName002 i "back_cover", .backCover, covers.back_cover.getD "", i⟩]
  else []

/-- Emission order of `generateCBZ` in src/unnamed/part_002: comic
cover, chapter cover, page-0 substitute, filtered and sorted regular
pages, back cover, with the `fileIndex` counter threaded through. -/
def generateCBZ002 (pages : List PageItem) (covers : CoverSet) : List Entry :=
  let s1 := leadingSeg covers 0
  let s2 := chapterSeg covers s1.2
  let s3 := page0Seg pages covers s2.2
  let s4 := pagesSeg (regularPages002 pages) s3.2
  s1.1 ++ s2.1 ++ s3.1 ++ s4.1 ++ backSeg covers s4.2

/-- Regular-page loop of the first `generateCBZ` in src/index.js:
iterate `pages` in input order, `continue` on `page_number === 0`. -/
def pagesSegIndexJs : List PageItem → Nat → List Entry × Nat
  | [], i => ([], i)
  | p :: rest, i =>
      if p.page_number == 0 then pagesSegIndexJs rest i
      else
        let done := pagesSegIndexJs rest (i + 1)
        (⟨mkNameJpg i ("page_" ++ toString p.page_number), .page p.page_number, p.image_url, i⟩ :: done.1,
         done.2)

/-- Emission order of the first `generateCBZ` in src/index.js: covers
use the literal names `000_cover.jpg` and `001_chapter.jpg`; pages are
emitted in input order (no sort), skipping page number 0. -/
def generateCBZIndexJs (pages : List PageItem) (covers : CoverSet) : List Entry :=
  let s1 : List Entry × Nat :=
    if jsTruthy covers.comic_cover then
      ([⟨"000_cover.jpg", .comicCover, covers.comic_cover.getD "", 0⟩], 1)
    else ([], 0)
  let s2 : List Entry × Nat :=
    if jsTruthy covers.chapter_cover then
      ([⟨"001_chapter.jpg", .chapterCover, covers.chapter_cover.getD "", s1.2⟩], s1.2 + 1)
    else ([], s1.2)
  let s3 := pagesSegIndexJs pages s2.2
  s1.1 ++ s2.1 ++ s3.1 ++
    (if jsTruthy covers.back_cover then
      [⟨mkNameJpg s3.2 "back", .backCover, covers.back_cover.getD "", s3.2⟩]
    else [])

/-- Regular-page loop of `generateCBZ` in src/unnamed/part_000: iterate
`pages` in input order with no page-0 skip. -/
def pagesSeg000 : List PageItem → Nat → List Entry × Nat
  | [], i => ([], i)
  | p :: rest, i =>
      let done := pagesSeg000 rest (i + 1)
      (⟨mkNameJpg i ("page_" ++ toString p.page_number), .page p.page_number, p.image_url, i⟩ :: done.1,
       done.2)

/-- Emission order of `generateCBZ` in src/unnamed/part_000: covers,
then every page of the input list (page number 0 included), back
cover. -/
def generateCBZ000 (pages : List PageItem) (covers : CoverSet) : List Entry :=
  let s1 : List Entry × Nat :=
    if jsTruthy covers.comic_cover then
      ([⟨"000_cover.jpg", .comicCover, covers.comic_cover.getD "", 0⟩], 1)
    else ([], 0)
  let s2 : List Entry × Nat :=
    if jsTruthy covers.chapter_cover then
      ([⟨"001_chapter.jpg", .chapterCover, covers.chapter_cover.getD "", s1.2⟩], s1.2 + 1)
    else ([], s1.2)
  let s3 := pagesSeg000 pages s2.2
  s1.1 ++ s2.1 ++ s3.1 ++
    (if jsTruthy covers.back_cover then
      [⟨mkNameJpg s3.2 "back", .backCover, covers.back_cover.getD "", s3.2⟩]
    else [])

/-- The page number carried by a page entry, `none` for cover slots. -/
def entryPageNo (e : Entry) : Option Int :=
  match e.label with
  | .page n => some n
  | _ => none

/-- Whether the part_002 emission fills its chapter-cover slot: either
`covers.chapter_cover` is truthy, or a page-0 item with a truthy url
exists to substitute for it. -/
def hasChapterSlot (pages : List PageItem) (covers : CoverSet) : Bool :=
  jsTruthy covers.chapter_cover ||
    (match pages.find? (fun p => p.page_number == 0) with
     | some p => p.image_url ≠ ""
     | none => false)

/-- State of the part_002 `ExportQueue`: the pending FIFO `queue`, the
`running` counter, plus the order of submissions and of job starts for
stating fairness. -/
structure QState where
  pending : List Nat
  running : Nat
  started : List Nat
  submitted : List Nat

/-- Fresh `ExportQueue`. -/
def initQ : QState := ⟨[], 0, [], []⟩

/-- `ExportQueue.process`: return when at the concurrency limit or the
queue is empty; otherwise shift the head job and increment `running`.
The check and the increment are a single synchronous block in the
source, hence one atomic transition. -/
def tryProcess (maxConcurrent : Nat) (s : QState) : QState :=
  match s.pending with
  | [] => s
  | j :: rest =>
      if s.running ≥ maxConcurrent then s
      else { s with pending := rest, running := s.running + 1, started := s.started ++ [j] }

/-- Queue events: `ExportQueue.add` pushes a job then calls `process`;
a running job finishing decrements `running` (the `finally` block) and
calls `process`. -/
inductive QEvent
  | submit (id : Nat)
  | finish

/-- One transition of the part_002 queue. -/
def qStep (maxConcurrent : Nat) (s : QState) : QEvent → QState
  | .submit id =>
      tryProcess maxConcurrent
        { s with pending := s.pending ++ [id], submitted := s.submitted ++ [id] }
  | .finish =>
      if s.running = 0 then s
      else tryProcess maxConcurrent { s with running := s.running - 1 }

/-- Run a whole event trace from the fresh queue. -/
def runQ (maxConcurrent : Nat) (events : List QEvent) : QState :=
  events.foldl (qStep maxConcurrent) initQ

/-- One stored entry of the `exportFiles` map. -/
structure StoredFile where
  buffer : List Nat
  mimeType : String
  fileName : String
  createdAt : Nat
deriving DecidableEq

/-- The `exportFiles` map, as an association list keyed by token. -/
abbrev FileStore := List (String × StoredFile)

/-- 24 hours in milliseconds: `24 * 60 * 60 * 1000`. -/
def expiryMs : Nat := 24 * 60 * 60 * 1000

/-- `exportFiles.get(token)`. -/
def storeLookup (store : FileStore) (token : String) : Option StoredFile :=
  (store.find? fun kv => kv.1 == token).map (·.2)

/-- `exportFiles.set(token, file)`: replace any entry under the token. -/
def putArtifact (store : FileStore) (token : String) (file : StoredFile) : FileStore :=
  (store.filter fun kv => kv.1 ≠ token) ++ [(token, file)]

/-- The cleanup loop of the download endpoints: delete every entry with
`now - createdAt > 24 * 60 * 60 * 1000`. -/
def sweepExpired (now : Nat) (store : FileStore) : FileStore :=
  store.filter fun kv => decide (now - kv.2.createdAt ≤ expiryMs)

/-- `exportFiles.delete(token)`. -/
def eraseToken (store : FileStore) (token : String) : FileStore :=
  store.filter fun kv => kv.1 ≠ token

/-- Response of `GET /download/:token`. -/
inductive DlResponse
  | notFound
  | found (buffer : List Nat) (mimeType fileName : String)
deriving DecidableEq

/-- The download endpoint of src/index.js: look the token up first
(404 when absent), only then run the 24h cleanup loop, send the
already-captured file data, and delete the served token. -/
def downloadIndexJs (now : Nat) (token : String) (store : FileStore) :
    DlResponse × FileStore :=
  match storeLookup store token with
  | none => (.notFound, store)
  | some a => (.found a.buffer a.mimeType a.fileName,
               eraseToken (sweepExpired now store) token)

/-- The download endpoint of src/unnamed/part_003: identical except the
final delete of the served token is commented out. -/
def downloadPart003 (now : Nat) (token : String) (store : FileStore) :
    DlResponse × FileStore :=
  match storeLookup store token with
  | none => (.notFound, store)
  | some a => (.found a.buffer a.mimeType a.fileName, sweepExpired now store)

/-- An export job description as submitted to `POST /export`. -/
structure ExportRequest where
  exportId : String
  pages : List PageItem
  covers : CoverSet
deriving DecidableEq

/-- part_002 submission validation:
`if (!exportId || !pages || pages.length === 0) return 400`. -/
def validExport (req : ExportRequest) : Bool :=
  !(req.exportId == "") && !(req.pages.isEmpty)

/-- Synchronous submission outcome. -/
inductive SubmitResult
  | rejected
  | accepted (queuePosition : Nat)
deriving DecidableEq

/-- The part_002 `POST /export` handler at submission time: reject
invalid requests before queueing, otherwise acknowledge with the queue
position and enqueue the job. -/
def postExport (queue : List ExportRequest) (req : ExportRequest) :
    SubmitResult × List ExportRequest :=
  if validExport req then (.accepted (queue.length + 1), queue ++ [req])
  else (.rejected, queue)

/-- Terminal status reported through `updateExportStatus`. -/
inductive ExportStatus
  | completed
  | failed (msg : String)
deriving DecidableEq

/-- Fetch and name every member of the emission in order; the first
failing fetch aborts the whole assembly. -/
def assembleFetched (fetch : String → Except String (List Nat))
    (entries : List Entry) : Except String (List (String × List Nat)) :=
  entries.mapM fun e => (fetch e.url).map fun b => (e.name, b)

/-- The queued task body of src/index.js around `generateCBZ`: any
error is caught and turned into the `failed` status, and the artifact
is stored into `exportFiles` only on the success path. -/
def runExportJob (fetch : String → Except String (List Nat)) (now : Nat)
    (store : FileStore) (job : ExportRequest) : ExportStatus × FileStore :=
  match assembleFetched fetch (generateCBZIndexJs job.pages job.covers) with
  | .error msg => (.failed msg, store)
  | .ok members =>
      (.completed,
       putArtifact store (job.exportId ++ "_" ++ Nat.repr now)
         ⟨members.flatMap (·.2), "application/zip", job.exportId ++ ".cbz", now⟩)

/-- Drain a queue of jobs one after the other, as the single-worker
queue does; each job is run inside its own try/catch, so one outcome is
produced per job whatever the earlier outcomes were. -/
def runJobs (fetch : String → Except String (List Nat)) (now : Nat) :
    FileStore → List ExportRequest → List ExportStatus × FileStore
  | store, [] => ([], store)
  | store, j :: rest =>
      let r := runExportJob fetch now store j
      let rs := runJobs fetch now r.2 rest
      (r.1 :: rs.1, rs.2)

/-- Observable micro-steps of the assembly loop: the fetch of the entry
at a position starts; the fetched bytes are appended and the local
buffer is dropped. -/
inductive AsmEvent
  | fetchStart (position : Nat)
  | appended (position : Nat)
deriving DecidableEq

/-- The event sequence of the assembly loops: for each entry in order,
its fetch completes before its append, and the next fetch only starts
after that append. -/
def scheduleAux : Nat → Nat → List AsmEvent
  | _, 0 => []
  | i, Nat.succ k => .fetchStart i :: .appended i :: scheduleAux (i + 1) k

/-- Assembly schedule of a given emission. -/
def assemblySchedule (entries : List Entry) : List AsmEvent :=
  scheduleAux 0 entries.length

/-- Count of simultaneously live entry buffers after a run of events,
starting from a given count. -/
def liveAfter : Nat → List AsmEvent → Nat
  | n, [] => n
  | n, .fetchStart _ :: evs => liveAfter (n + 1) evs
  | n, .appended _ :: evs => liveAfter (n - 1) evs

/-- Live entry buffers after a whole event list. -/
def liveBuffers (evs : List AsmEvent) : Nat := liveAfter 0 evs

/-- One longstrip panel: `{ panel_number, panel_suffix, image_url }`. -/
structure Panel where
  panel_number : Int
  panel_suffix : Option String
  image_url : String
deriving DecidableEq

/-- Lexicographic three-way comparison of character lists, the order
`String.prototype.localeCompare` induces on plain ASCII suffixes. -/
def charListCmp : List Char → List Char → Int
  | [], [] => 0
  | [], _ :: _ => -1
  | _ :: _, [] => 1
  | a :: as, b :: bs =>
      if a < b then -1 else if b < a then 1 else charListCmp as bs

/-- Model of `suffixA.localeCompare(suffixB)`. -/
def localeCompareInt (x y : String) : Int := charListCmp x.data y.data

/-- The part_002 longstrip comparator: by `panel_number`, then empty or
null suffix first, then suffixes compared by `localeCompare`. -/
def panelCmp (a b : Panel) : Int :=
  if a.panel_number ≠ b.panel_number then a.panel_number - b.panel_number
  else
    let suffixA := a.panel_suffix.getD ""
    let suffixB := b.panel_suffix.getD ""
    if suffixA = "" ∧ suffixB ≠ "" then -1
    else if suffixA ≠ "" ∧ suffixB = "" then 1
    else localeCompareInt suffixA suffixB

/-- The ordering `[...panels].sort(comparator)` sorts by. -/
def panelLe (a b : Panel) : Prop := panelCmp a b ≤ 0

instance : DecidableRel panelLe :=
  fun a b => inferInstanceAs (Decidable (panelCmp a b ≤ 0))

/-- part_002 `sortPanels`: a stable sort of a copy of the input by the
comparator, modelled by insertion sort. -/
def sortPanels (panels : List Panel) : List Panel :=
  List.insertionSort panelLe panels

/-- Queue invariant: the running count respects the limit, and the jobs
started so far followed by the jobs still pending are exactly the jobs
submitted, in submission order. -/
def qInv (maxConcurrent : Nat) (s : QState) : Prop :=
  s.running ≤ maxConcurrent ∧ s.started ++ s.pending = s.submitted

theorem qInv_init (maxConcurrent : Nat) : qInv maxConcurrent initQ := by
  constructor <;> simp [initQ]

theorem qInv_tryProcess (maxConcurrent : Nat) (s : QState)
    (h : qInv maxConcurrent s) : qInv maxConcurrent (tryProcess maxConcurrent s) := by
  obtain ⟨h₁, h₂⟩ := h
  unfold tryProcess
  cases hp : s.pending with
  | nil => exact ⟨h₁, h₂⟩
  | cons j rest =>
      by_cases hr : s.running ≥ maxConcurrent
      · simp only [hr, if_true]
        exact ⟨h₁, h₂⟩
      · simp only [hr, if_false]
        refine ⟨?_, ?_⟩
        · show s.running + 1 ≤ maxConcurrent
          omega
        · show s.started ++ [j] ++ rest = s.submitted
          rw [List.append_assoc]
          rw [hp] at h₂
          simpa using h₂

theorem qInv_qStep (maxConcurrent : Nat) (s : QState) (e : QEvent)
    (h : qInv maxConcurrent s) : qInv maxConcurrent (qStep maxConcurrent s e) := by
  obtain ⟨h₁, h₂⟩ := h
  cases e with
  | submit id =>
      apply qInv_tryProcess
      refine ⟨h₁, ?_⟩
      show s.started ++ (s.pending ++ [id]) = s.submitted ++ [id]
      rw [← List.append_assoc, h₂]
  | finish =>
      show qInv maxConcurrent (if s.running = 0 then s else _)
      by_cases hz : s.running = 0
      · simp only [hz, if_true]
        exact ⟨h₁, h₂⟩
      · simp only [hz, if_false]
        apply qInv_tryProcess
        refine ⟨?_, h₂⟩
        show s.running - 1 ≤ maxConcurrent
        omega

theorem qInv_foldl (maxConcurrent : Nat) (events : List QEvent) (s : QState)
    (h : qInv maxConcurrent s) :
    qInv maxConcurrent (events.foldl (qStep maxConcurrent) s) := by
  induction events generalizing s with
  | nil => exact h
  | cons e rest ih => exact ih _ (qInv_qStep maxConcurrent s e h)

theorem qInv_runQ (maxConcurrent : Nat) (events : List QEvent) :
    qInv maxConcurrent (runQ maxConcurrent events) :=
  qInv_foldl maxConcurrent events initQ (qInv_init maxConcurrent)

/-- C3: in every execution trace of the part_002 `ExportQueue`, the
number of jobs simultaneously running never exceeds the configured
concurrency limit, at every instant (every reachable state). -/
theorem c3_running_never_exceeds_limit (maxConcurrent : Nat) (events : List QEvent) :
    (runQ maxConcurrent events).running ≤ maxConcurrent :=
  (qInv_runQ maxConcurrent events).1

/-- C7: the part_002 `ExportQueue` is FIFO: in every reachable state the
jobs started so far are exactly the first submitted jobs in submission
order, and the pending jobs are the remaining submissions in order, so
no job starts running while an earlier submission still waits. -/
theorem c7_queue_fifo (maxConcurrent : Nat) (events : List QEvent) :
    (runQ maxConcurrent events).started =
      (runQ maxConcurrent events).submitted.take
        (runQ maxConcurrent events).started.length ∧
    (runQ maxConcurrent events).pending =
      (runQ maxConcurrent events).submitted.drop
        (runQ maxConcurrent events).started.length := by
  have h := (qInv_runQ maxConcurrent events).2
  constructor
  · rw [← h, List.take_left]
  · rw [← h, List.drop_left]

theorem range'_chain (s m n : Nat) :
    List.range' s m ++ List.range' (s + m) n = List.range' s (m + n) := by
  induction m generalizing s with
  | zero => simp
  | succ k ih =>
      have hs : s + (k + 1) = (s + 1) + k := by omega
      have hn : k + 1 + n = (k + n) + 1 := by omega
      simp only [List.range'_succ, List.cons_append, hs, ih (s + 1), hn]

theorem pagesSeg_map_label (l : List PageItem) (i : Nat) :
    (pagesSeg l i).1.map Entry.label = l.map fun p => Label.page p.page_number := by
  induction l generalizing i with
  | nil => rfl
  | cons p rest ih => simp [pagesSeg, ih]

theorem pagesSeg_filterMap_pageNo (l : List PageItem) (i : Nat) :
    (pagesSeg l i).1.filterMap entryPageNo = l.map PageItem.page_number := by
  induction l generalizing i with
  | nil => rfl
  | cons p rest ih => simp [pagesSeg, entryPageNo, ih]

theorem pagesSeg_map_index (l : List PageItem) (i : Nat) :
    (pagesSeg l i).1.map Entry.index = List.range' i l.length := by
  induction l generalizing i with
  | nil => rfl
  | cons p rest ih => simp [pagesSeg, ih, List.range'_succ]

theorem pagesSeg_snd (l : List PageItem) (i : Nat) :
    (pagesSeg l i).2 = i + l.length := by
  induction l generalizing i with
  | nil => simp [pagesSeg]
  | cons p rest ih => simp [pagesSeg, ih]; omega

theorem pagesSeg_name_shape (l : List PageItem) (i : Nat) :
    ∀ e ∈ (pagesSeg l i).1, ∃ slot, e.name = mkName002 e.index slot := by
  induction l generalizing i with
  | nil => simp [pagesSeg]
  | cons p rest ih =>
      intro e he
      simp only [pagesSeg, List.mem_cons] at he
      rcases he with he | he
      · subst he
        exact ⟨"page_" ++ toString p.page_number, rfl⟩
      · exact ih (i + 1) e he

theorem pagesSeg_filter_chapter (l : List PageItem) (i : Nat) :
    ((pagesSeg l i).1.filter fun e => e.label == Label.chapterCover) = [] := by
  induction l generalizing i with
  | nil => rfl
  | cons p rest ih => simp [pagesSeg, ih]

theorem leadingSeg_map_index (covers : CoverSet) (i : Nat) :
    (leadingSeg covers i).1.map Entry.index = List.range' i (leadingSeg covers i).1.length := by
  by_cases h : jsTruthy covers.comic_cover <;> simp [leadingSeg, h, List.range'_succ]

theorem leadingSeg_snd (covers : CoverSet) (i : Nat) :
    (leadingSeg covers i).2 = i + (leadingSeg covers i).1.length := by
  by_cases h : jsTruthy covers.comic_cover <;> simp [leadingSeg, h]

theorem chapterSeg_map_index (covers : CoverSet) (i : Nat) :
    (chapterSeg covers i).1.map Entry.index = List.range' i (chapterSeg covers i).1.length := by
  by_cases h : jsTruthy covers.chapter_cover <;> simp [chapterSeg, h, List.range'_succ]

theorem chapterSeg_snd (covers : CoverSet) (i : Nat) :
    (chapterSeg covers i).2 = i + (chapterSeg covers i).1.length := by
  by_cases h : jsTruthy covers.chapter_cover <;> simp [chapterSeg, h]

theorem page0Seg_map_index (pages : List PageItem) (covers : CoverSet) (i : Nat) :
    (page0Seg pages covers i).1.map Entry.index
      = List.range' i (page0Seg pages covers i).1.length := by
  unfold page0Seg
  cases pages.find? (fun p => p.page_number == 0) with
  | none => rfl
  | some p =>
      by_cases h : p.image_url ≠ "" ∧ jsTruthy covers.chapter_cover = false <;>
        simp [h, List.range'_succ]

theorem page0Seg_snd (pages : List PageItem) (covers : CoverSet) (i : Nat) :
    (page0Seg pages covers i).2 = i + (page0Seg pages covers i).1.length := by
  unfold page0Seg
  cases pages.find? (fun p => p.page_number == 0) with
  | none => rfl
  | some p =>
      by_cases h : p.image_url ≠ "" ∧ jsTruthy covers.chapter_cover = false <;> simp [h]

theorem backSeg_map_index (covers : CoverSet) (i : Nat) :
    (backSeg covers i).map Entry.index = List.range' i (backSeg covers i).length := by
  by_cases h : jsTruthy covers.back_cover <;> simp [backSeg, h, List.range'_succ]

theorem indexChain {xs ys : List Entry} {i : Nat}
    (hx : xs.map Entry.index = List.range' i xs.length)
    (hy : ys.map Entry.index = List.range' (i + xs.length) ys.length) :
    (xs ++ ys).map Entry.index = List.range' i (xs.length + ys.length) := by
  rw [List.map_append, hx, hy, range'_chain]

theorem chain5 {s1 s2 s3 s4 s5 : List Entry} {i1 i2 i3 i4 : Nat}
    (h1 : s1.map Entry.index = List.range' 0 s1.length)
    (e1 : i1 = 0 + s1.length)
    (h2 : s2.map Entry.index = List.range' i1 s2.length)
    (e2 : i2 = i1 + s2.length)
    (h3 : s3.map Entry.index = List.range' i2 s3.length)
    (e3 : i3 = i2 + s3.length)
    (h4 : s4.map Entry.index = List.range' i3 s4.length)
    (e4 : i4 = i3 + s4.length)
    (h5 : s5.map Entry.index = List.range' i4 s5.length) :
    (s1 ++ s2 ++ s3 ++ s4 ++ s5).map Entry.index
      = List.range (s1 ++ s2 ++ s3 ++ s4 ++ s5).length := by
  subst e1 e2 e3 e4
  simp only [Nat.zero_add, Nat.add_assoc] at h2 h3 h4 h5
  simp only [List.range_eq_range', List.length_append, Nat.add_assoc]
  have c2 : (s1 ++ s2).map Entry.index = List.range' 0 (s1 ++ s2).length := by
    simpa [List.length_append, Nat.add_assoc] using indexChain h1 (show s2.map Entry.index
      = List.range' (0 + s1.length) s2.length by simpa using h2)
  have c3 : (s1 ++ s2 ++ s3).map Entry.index = List.range' 0 (s1 ++ s2 ++ s3).length := by
    simpa [List.length_append, Nat.add_assoc] using indexChain c2 (show s3.map Entry.index
      = List.range' (0 + (s1 ++ s2).length) s3.length by
        simpa [List.length_append, Nat.add_assoc] using h3)
  have c4 : (s1 ++ s2 ++ s3 ++ s4).map Entry.index
      = List.range' 0 (s1 ++ s2 ++ s3 ++ s4).length := by
    simpa [List.length_append, Nat.add_assoc] using indexChain c3 (show s4.map Entry.index
      = List.range' (0 + (s1 ++ s2 ++ s3).length) s4.length by
        simpa [List.length_append, Nat.add_assoc] using h4)
  have c5 := indexChain c4 (show s5.map Entry.index
    = List.range' (0 + (s1 ++ s2 ++ s3 ++ s4).length) s5.length by
      simpa [List.length_append, Nat.add_assoc] using h5)
  simpa [List.length_append, Nat.add_assoc] using c5

theorem pagesSeg_length (l : List PageItem) (i : Nat) :
    (pagesSeg l i).1.length = l.length := by
  induction l generalizing i with
  | nil => rfl
  | cons p rest ih => simp [pagesSeg, ih]

theorem generateCBZ002_map_index (pages : List PageItem) (covers : CoverSet) :
    (generateCBZ002 pages covers).map Entry.index
      = List.range (generateCBZ002 pages covers).length := by
  simp only [generateCBZ002]
  exact chain5 (leadingSeg_map_index covers 0) (leadingSeg_snd covers 0)
    (chapterSeg_map_index covers _) (chapterSeg_snd covers _)
    (page0Seg_map_index pages covers _) (page0Seg_snd pages covers _)
    (by rw [pagesSeg_length]; exact pagesSeg_map_index (regularPages002 pages) _)
    (by rw [pagesSeg_length]; exact pagesSeg_snd (regularPages002 pages) _)
    (backSeg_map_index covers _)

theorem leadingSeg_filterMap_pageNo (covers : CoverSet) (i : Nat) :
    (leadingSeg covers i).1.filterMap entryPageNo = [] := by
  by_cases h : jsTruthy covers.comic_cover <;> simp [leadingSeg, h, entryPageNo]

theorem chapterSeg_filterMap_pageNo (covers : CoverSet) (i : Nat) :
    (chapterSeg covers i).1.filterMap entryPageNo = [] := by
  by_cases h : jsTruthy covers.chapter_cover <;> simp [chapterSeg, h, entryPageNo]

theorem page0Seg_filterMap_pageNo (pages : List PageItem) (covers : CoverSet) (i : Nat) :
    (page0Seg pages covers i).1.filterMap entryPageNo = [] := by
  unfold page0Seg
  cases pages.find? (fun p => p.page_number == 0) with
  | none => rfl
  | some p =>
      by_cases h : p.image_url ≠ "" ∧ jsTruthy covers.chapter_cover = false <;>
        simp [h, entryPageNo]

theorem backSeg_filterMap_pageNo (covers : CoverSet) (i : Nat) :
    (backSeg covers i).filterMap entryPageNo = [] := by
  by_cases h : jsTruthy covers.back_cover <;> simp [backSeg, h, entryPageNo]

theorem generateCBZ002_filterMap_pageNo (pages : List PageItem) (covers : CoverSet) :
    (generateCBZ002 pages covers).filterMap entryPageNo
      = (regularPages002 pages).map PageItem.page_number := by
  simp only [generateCBZ002, List.filterMap_append, leadingSeg_filterMap_pageNo,
    chapterSeg_filterMap_pageNo, page0Seg_filterMap_pageNo, backSeg_filterMap_pageNo,
    pagesSeg_filterMap_pageNo, List.nil_append, List.append_nil]

theorem generateCBZ002_head_label (pages : List PageItem) (covers : CoverSet)
    (h : jsTruthy covers.comic_cover = true) :
    ((generateCBZ002 pages covers).map Entry.label).head? = some Label.comicCover := by
  simp [generateCBZ002, leadingSeg, h]

theorem generateCBZ002_last_label (pages : List PageItem) (covers : CoverSet)
    (h : jsTruthy covers.back_cover = true) :
    ((generateCBZ002 pages covers).map Entry.label).getLast? = some Label.backCover := by
  simp only [generateCBZ002, backSeg, h, if_true, List.map_append, List.map_cons,
    List.map_nil]
  rw [List.getLast?_concat]

theorem pagesSegIndexJs_filterMap (l : List PageItem) (i : Nat) :
    (pagesSegIndexJs l i).1.filterMap entryPageNo
      = (l.filter fun p => decide (p.page_number ≠ 0)).map PageItem.page_number := by
  induction l generalizing i with
  | nil => rfl
  | cons p rest ih =>
      by_cases h : p.page_number = 0 <;>
        simp [pagesSegIndexJs, h, ih, entryPageNo, List.filter_cons]

theorem generateCBZIndexJs_filterMap_pageNo (pages : List PageItem) (covers : CoverSet) :
    (generateCBZIndexJs pages covers).filterMap entryPageNo
      = (pages.filter fun p => decide (p.page_number ≠ 0)).map PageItem.page_number := by
  by_cases h1 : jsTruthy covers.comic_cover <;>
    by_cases h2 : jsTruthy covers.chapter_cover <;>
      by_cases h3 : jsTruthy covers.back_cover <;>
        simp [generateCBZIndexJs, h1, h2, h3, entryPageNo, List.filterMap_append,
          pagesSegIndexJs_filterMap]

theorem generateCBZ002_label_structure (pages : List PageItem) (covers : CoverSet) :
    (generateCBZ002 pages covers).map Entry.label
      = (if jsTruthy covers.comic_cover then [Label.comicCover] else [])
        ++ (if hasChapterSlot pages covers then [Label.chapterCover] else [])
        ++ (regularPages002 pages).map (fun p => Label.page p.page_number)
        ++ (if jsTruthy covers.back_cover then [Label.backCover] else []) := by
  cases hf : pages.find? (fun p => p.page_number == 0) with
  | none =>
      by_cases h1 : jsTruthy covers.comic_cover <;>
        by_cases h2 : jsTruthy covers.chapter_cover <;>
          by_cases h3 : jsTruthy covers.back_cover <;>
            simp [generateCBZ002, leadingSeg, chapterSeg, page0Seg, backSeg, hasChapterSlot,
              pagesSeg_map_label, hf, h1, h2, h3]
  | some p =>
      by_cases h1 : jsTruthy covers.comic_cover <;>
        by_cases h2 : jsTruthy covers.chapter_cover <;>
          by_cases h3 : jsTruthy covers.back_cover <;>
            by_cases hu : p.image_url = "" <;>
              simp [generateCBZ002, leadingSeg, chapterSeg, page0Seg, backSeg, hasChapterSlot,
                pagesSeg_map_label, hf, h1, h2, h3, hu]

/-- C1 (counterexample): for the `generateCBZ` of src/index.js, the
input page order [page 2, page 1] is emitted as [page 2, page 1]; pages
with number > 0 do not come out sorted ascending by page number. -/
theorem c1_counterexample :
    (generateCBZIndexJs [⟨2, "u2"⟩, ⟨1, "u1"⟩] ⟨none, none, none⟩).filterMap entryPageNo
        = [2, 1] ∧
    ¬ ((generateCBZIndexJs [⟨2, "u2"⟩, ⟨1, "u1"⟩] ⟨none, none, none⟩).filterMap
        entryPageNo).Pairwise (· ≤ ·) := by
  constructor
  · decide
  · decide

/-- C1 (amended): in the part_002 `generateCBZ`, the emission is the
leading cover first when present, then the chapter-cover slot, then the
pages with number > 0 (and a truthy url) sorted ascending by page
number, then the back cover last when present, with sequence indices
0, 1, 2, ...; the src/index.js `generateCBZ` instead emits the pages
with number different from 0 in input-list order, so its output is
sorted only when the input already is. -/
theorem c1_amended_ordering (pages : List PageItem) (covers : CoverSet) :
    (generateCBZ002 pages covers).map Entry.label
      = (if jsTruthy covers.comic_cover then [Label.comicCover] else [])
        ++ (if hasChapterSlot pages covers then [Label.chapterCover] else [])
        ++ (regularPages002 pages).map (fun p => Label.page p.page_number)
        ++ (if jsTruthy covers.back_cover then [Label.backCover] else []) ∧
    ((regularPages002 pages).map PageItem.page_number).Pairwise (· ≤ ·) ∧
    ((generateCBZ002 pages covers).filterMap entryPageNo).Pairwise (· ≤ ·) ∧
    ((generateCBZ002 pages covers).filterMap entryPageNo).Perm
      ((pages.filter fun p => decide (0 < p.page_number) && decide (p.image_url ≠ "")).map
        PageItem.page_number) ∧
    (generateCBZ002 pages covers).map Entry.index
      = List.range (generateCBZ002 pages covers).length ∧
    (jsTruthy covers.comic_cover = true →
      ((generateCBZ002 pages covers).map Entry.label).head? = some Label.comicCover) ∧
    (jsTruthy covers.back_cover = true →
      ((generateCBZ002 pages covers).map Entry.label).getLast? = some Label.backCover) ∧
    (generateCBZIndexJs pages covers).filterMap entryPageNo
      = (pages.filter fun p => decide (p.page_number ≠ 0)).map PageItem.page_number := by
  refine ⟨generateCBZ002_label_structure pages covers, ?_, ?_, ?_,
    generateCBZ002_map_index pages covers,
    generateCBZ002_head_label pages covers, generateCBZ002_last_label pages covers,
    generateCBZIndexJs_filterMap_pageNo pages covers⟩
  · exact List.pairwise_map.mpr (List.sorted_insertionSort pageLe _)
  · rw [generateCBZ002_filterMap_pageNo]
    exact List.pairwise_map.mpr (List.sorted_insertionSort pageLe _)
  · rw [generateCBZ002_filterMap_pageNo]
    exact (List.perm_insertionSort pageLe _).map PageItem.page_number

/-- C1 (witness): the amended ordering theorem applied to a concrete
one-page job with a leading and a back cover. -/
theorem c1_amended_ordering_witness :
    ((generateCBZ002 [⟨1, "u1"⟩] ⟨some "c", none, some "b"⟩).map Entry.label).head?
        = some Label.comicCover ∧
    ((generateCBZ002 [⟨1, "u1"⟩] ⟨some "c", none, some "b"⟩).map Entry.label).getLast?
        = some Label.backCover :=
  ⟨(c1_amended_ordering [⟨1, "u1"⟩] ⟨some "c", none, some "b"⟩).2.2.2.2.2.1 (by decide),
   (c1_amended_ordering [⟨1, "u1"⟩] ⟨some "c", none, some "b"⟩).2.2.2.2.2.2.1 (by decide)⟩

theorem leadingSeg_no_page (covers : CoverSet) (i : Nat) (n : Int) :
    Label.page n ∉ (leadingSeg covers i).1.map Entry.label := by
  by_cases h : jsTruthy covers.comic_cover <;> simp [leadingSeg, h]

theorem chapterSeg_no_page (covers : CoverSet) (i : Nat) (n : Int) :
    Label.page n ∉ (chapterSeg covers i).1.map Entry.label := by
  by_cases h : jsTruthy covers.chapter_cover <;> simp [chapterSeg, h]

theorem page0Seg_no_page (pages : List PageItem) (covers : CoverSet) (i : Nat) (n : Int) :
    Label.page n ∉ (page0Seg pages covers i).1.map Entry.label := by
  unfold page0Seg
  cases pages.find? (fun p => p.page_number == 0) with
  | none => simp
  | some p =>
      by_cases h : p.image_url ≠ "" ∧ jsTruthy covers.chapter_cover = false <;> simp [h]

theorem backSeg_no_page (covers : CoverSet) (i : Nat) (n : Int) :
    Label.page n ∉ (backSeg covers i).map Entry.label := by
  by_cases h : jsTruthy covers.back_cover <;> simp [backSeg, h]

theorem mem_pagesSeg_label (l : List PageItem) (i : Nat) (n : Int)
    (h : Label.page n ∈ (pagesSeg l i).1.map Entry.label) : ∃ p ∈ l, p.page_number = n := by
  rw [pagesSeg_map_label] at h
  simpa using h

theorem leadingSeg_filter_chapter (covers : CoverSet) (i : Nat) :
    ((leadingSeg covers i).1.filter fun e => e.label == Label.chapterCover) = [] := by
  by_cases h : jsTruthy covers.comic_cover <;> simp [leadingSeg, h]

theorem backSeg_filter_chapter (covers : CoverSet) (i : Nat) :
    ((backSeg covers i).filter fun e => e.label == Label.chapterCover) = [] := by
  by_cases h : jsTruthy covers.back_cover <;> simp [backSeg, h]

/-- C2 (counterexample): the part_000 `generateCBZ` loop has no page-0
skip, so with `covers.chapter_cover` set and a page-0 item in the input
list, a page-0 member is still emitted. -/
theorem c2_counterexample :
    Label.page 0 ∈ (generateCBZ000 [⟨0, "u0"⟩] ⟨none, some "c", none⟩).map Entry.label := by
  decide

/-- C2 (amended): in the part_002 `generateCBZ`, no page-0 member is
ever emitted; when `covers.chapter_cover` is set, the single
chapter-cover member comes from the cover url (never from the page-0
item, even if present); when it is absent and a page-0 item with a
truthy url exists, that item is emitted in the chapter-cover slot.  The
part_000 variant instead emits page-0 items as regular pages even when
the chapter cover is set. -/
theorem c2_amended (pages : List PageItem) (covers : CoverSet) :
    (∀ n : Int, Label.page n ∈ (generateCBZ002 pages covers).map Entry.label → 0 < n) ∧
    (jsTruthy covers.chapter_cover = true →
      ((generateCBZ002 pages covers).filter fun e => e.label == Label.chapterCover).map
          Entry.url = [covers.chapter_cover.getD ""]) ∧
    (∀ p : PageItem, jsTruthy covers.chapter_cover = false →
      pages.find? (fun q => q.page_number == 0) = some p → p.image_url ≠ "" →
      ((generateCBZ002 pages covers).filter fun e => e.label == Label.chapterCover).map
          Entry.url = [p.image_url]) := by
  refine ⟨?_, ?_, ?_⟩
  · intro n hn
    simp only [generateCBZ002, List.map_append, List.mem_append] at hn
    rcases hn with ((((h1 | h2) | h3) | h4) | h5)
    · exact absurd h1 (leadingSeg_no_page covers 0 n)
    · exact absurd h2 (chapterSeg_no_page covers _ n)
    · exact absurd h3 (page0Seg_no_page pages covers _ n)
    · obtain ⟨p, hp, hpn⟩ := mem_pagesSeg_label _ _ n h4
      have hp' : p ∈ pages.filter fun p =>
          decide (0 < p.page_number) && decide (p.image_url ≠ "") :=
        (List.perm_insertionSort pageLe _).mem_iff.mp hp
      have := List.of_mem_filter hp'
      simp only [Bool.and_eq_true, decide_eq_true_eq] at this
      omega
    · exact absurd h5 (backSeg_no_page covers _ n)
  · intro h
    simp only [generateCBZ002, List.filter_append, leadingSeg_filter_chapter,
      backSeg_filter_chapter, pagesSeg_filter_chapter, List.append_nil, List.nil_append]
    unfold page0Seg
    cases pages.find? (fun p => p.page_number == 0) with
    | none => simp [chapterSeg, h]
    | some p => simp [chapterSeg, h]
  · intro p hc hf hu
    simp only [generateCBZ002, List.filter_append, leadingSeg_filter_chapter,
      backSeg_filter_chapter, pagesSeg_filter_chapter, List.append_nil, List.nil_append]
    unfold page0Seg
    rw [hf]
    simp [chapterSeg, hc, hu]

/-- C2 (witness): the amended theorem applied to a two-page job, once
with an explicit chapter cover and once with the page-0 substitute. -/
theorem c2_amended_witness :
    ((generateCBZ002 [⟨0, "p0"⟩, ⟨1, "p1"⟩] ⟨none, some "cc", none⟩).filter
        fun e => e.label == Label.chapterCover).map Entry.url = ["cc"] ∧
    ((generateCBZ002 [⟨0, "p0"⟩, ⟨1, "p1"⟩] ⟨none, none, none⟩).filter
        fun e => e.label == Label.chapterCover).map Entry.url = ["p0"] :=
  ⟨(c2_amended [⟨0, "p0"⟩, ⟨1, "p1"⟩] ⟨none, some "cc", none⟩).2.1 (by decide),
   (c2_amended [⟨0, "p0"⟩, ⟨1, "p1"⟩] ⟨none, none, none⟩).2.2 ⟨0, "p0"⟩ (by decide)
     (by decide) (by decide)⟩

/-- C6 (counterexample): a job with a duplicated page number 1 > 0 is
accepted by the part_002 submission validation and is queued; duplicate
page numbers are not validated. -/
theorem c6_counterexample :
    ([⟨1, "u"⟩, ⟨1, "v"⟩] : List PageItem).map PageItem.page_number = [1, 1] ∧
    (0 : Int) < 1 ∧
    (postExport [] ⟨"e1", [⟨1, "u"⟩, ⟨1, "v"⟩], ⟨none, none, none⟩⟩).1
        ≠ SubmitResult.rejected ∧
    (postExport [] ⟨"e1", [⟨1, "u"⟩, ⟨1, "v"⟩], ⟨none, none, none⟩⟩).2 ≠ [] := by
  refine ⟨rfl, by decide, by decide, by decide⟩

/-- C6 (amended): the part_002 handler synchronously rejects exactly the
requests with a falsy `exportId` or an empty (or missing) pages list —
in particular an entirely empty job — before anything is queued, and a
rejected job is never queued; duplicate page numbers > 0 are not
checked, so such a job is accepted and queued. -/
theorem c6_amended (queue : List ExportRequest) (req : ExportRequest) :
    (validExport req = false ↔ req.exportId = "" ∨ req.pages = []) ∧
    (validExport req = false → postExport queue req = (SubmitResult.rejected, queue)) ∧
    (validExport req = true →
      postExport queue req = (SubmitResult.accepted (queue.length + 1), queue ++ [req])) := by
  refine ⟨?_, ?_, ?_⟩
  · simp only [validExport, Bool.and_eq_false_iff, Bool.not_eq_false', beq_iff_eq,
      List.isEmpty_iff]
  · intro h
    simp [postExport, h]
  · intro h
    simp [postExport, h]

/-- C6 (witness): the amended theorem applied to an empty job (rejected,
queue untouched) and to a well-formed one-page job (accepted). -/
theorem c6_amended_witness :
    postExport [] ⟨"", [], ⟨none, none, none⟩⟩ = (SubmitResult.rejected, []) ∧
    postExport [] ⟨"e2", [⟨1, "u"⟩], ⟨none, none, none⟩⟩
      = (SubmitResult.accepted 1, [⟨"e2", [⟨1, "u"⟩], ⟨none, none, none⟩⟩]) :=
  ⟨(c6_amended [] ⟨"", [], ⟨none, none, none⟩⟩).2.1 (by decide),
   (c6_amended [] ⟨"e2", [⟨1, "u"⟩], ⟨none, none, none⟩⟩).2.2 (by decide)⟩

theorem storeLookup_put (store : FileStore) (token : String) (file : StoredFile) :
    storeLookup (putArtifact store token file) token = some file := by
  unfold storeLookup putArtifact
  rw [List.find?_append]
  have h1 : (store.filter fun kv => kv.1 ≠ token).find? (fun kv => kv.1 == token) = none := by
    rw [List.find?_eq_none]
    intro kv hkv
    have := List.of_mem_filter hkv
    simp only [decide_eq_true_eq] at this
    simp [this]
  rw [h1]
  simp

theorem storeLookup_erase (store : FileStore) (token : String) :
    storeLookup (eraseToken store token) token = none := by
  unfold storeLookup eraseToken
  rw [Option.map_eq_none', List.find?_eq_none]
  intro kv hkv
  have := List.of_mem_filter hkv
  simp only [decide_eq_true_eq] at this
  simp [this]

theorem mem_sweep_unexpired (now : Nat) (store : FileStore) :
    ∀ kv ∈ sweepExpired now store, now - kv.2.createdAt ≤ expiryMs := by
  intro kv h
  simpa using List.of_mem_filter h

theorem storeLookup_cons_pos (kv : String × StoredFile) (rest : FileStore) (token : String)
    (hk : (kv.1 == token) = true) : storeLookup (kv :: rest) token = some kv.2 := by
  unfold storeLookup
  have hf : List.find? (fun x : String × StoredFile => x.1 == token) (kv :: rest) = some kv :=
    List.find?_cons_of_pos rest
      (show (fun x : String × StoredFile => x.1 == token) kv = true from hk)
  rw [hf]
  rfl

theorem storeLookup_cons_neg (kv : String × StoredFile) (rest : FileStore) (token : String)
    (hk : (kv.1 == token) = false) :
    storeLookup (kv :: rest) token = storeLookup rest token := by
  unfold storeLookup
  have hf : List.find? (fun x : String × StoredFile => x.1 == token) (kv :: rest)
      = List.find? (fun x : String × StoredFile => x.1 == token) rest :=
    List.find?_cons_of_neg rest
      (show ¬ (fun x : String × StoredFile => x.1 == token) kv = true by simp [hk])
  rw [hf]

theorem sweepExpired_cons (now : Nat) (kv : String × StoredFile) (rest : FileStore) :
    sweepExpired now (kv :: rest)
      = if now - kv.2.createdAt ≤ expiryMs
        then kv :: sweepExpired now rest else sweepExpired now rest := by
  simp only [sweepExpired, List.filter_cons]
  by_cases h : now - kv.2.createdAt ≤ expiryMs <;> simp [h]

theorem storeLookup_sweep (now : Nat) (store : FileStore) (token : String) (file : StoredFile)
    (h : storeLookup store token = some file) (hexp : now - file.createdAt ≤ expiryMs) :
    storeLookup (sweepExpired now store) token = some file := by
  induction store with
  | nil => simp [storeLookup] at h
  | cons kv rest ih =>
      rw [sweepExpired_cons]
      by_cases hk : (kv.1 == token) = true
      · have hkv : kv.2 = file := by
          rw [storeLookup_cons_pos kv rest token hk] at h
          exact Option.some.inj h
        rw [if_pos (by rw [hkv]; exact hexp)]
        rw [storeLookup_cons_pos kv _ token hk, hkv]
      · have hk' : (kv.1 == token) = false := by simpa using hk
        have hrest := ih (by rwa [storeLookup_cons_neg kv rest token hk'] at h)
        by_cases hkeep : now - kv.2.createdAt ≤ expiryMs
        · rw [if_pos hkeep, storeLookup_cons_neg kv _ token hk']
          exact hrest
        · rw [if_neg hkeep]
          exact hrest

/-- C5 (counterexample): one stored artifact created at time 0 and
first retrieved at 86400001 ms, strictly after the 24 hour horizon: the
download still returns the payload instead of NotFound, because the
handler looks the token up before running the cleanup loop. -/
theorem c5_counterexample :
    expiryMs < 86400001 - (0 : Nat) ∧
    (downloadIndexJs 86400001 "t" [("t", ⟨[7], "application/zip", "f.cbz", 0⟩)]).1
      = DlResponse.found [7] "application/zip" "f.cbz" := by
  constructor
  · decide
  · rfl

/-- C5 (amended): a get of a stored token returns exactly the bytes and
metadata passed to put, even when the token is already past the expiry
horizon (the lazy 24h sweep runs only after the lookup); a successful
get sweeps every expired artifact and, in the src/index.js variant,
also destroys the retrieved artifact, so a second get returns NotFound;
in the part_003 variant the retrieved artifact is kept (an unexpired
one is still there afterwards); a get of an absent token returns
NotFound and leaves the store unchanged. -/
theorem c5_amended (now : Nat) (token : String) (store : FileStore) (file : StoredFile) :
    storeLookup (putArtifact store token file) token = some file ∧
    (storeLookup store token = none →
      downloadIndexJs now token store = (DlResponse.notFound, store) ∧
      downloadPart003 now token store = (DlResponse.notFound, store)) ∧
    (storeLookup store token = some file →
      (downloadIndexJs now token store).1
          = DlResponse.found file.buffer file.mimeType file.fileName ∧
      storeLookup (downloadIndexJs now token store).2 token = none ∧
      (∀ kv ∈ (downloadIndexJs now token store).2, now - kv.2.createdAt ≤ expiryMs) ∧
      (downloadPart003 now token store).1
          = DlResponse.found file.buffer file.mimeType file.fileName ∧
      (now - file.createdAt ≤ expiryMs →
        storeLookup (downloadPart003 now token store).2 token = some file)) := by
  refine ⟨storeLookup_put store token file, ?_, ?_⟩
  · intro h
    constructor
    · simp only [downloadIndexJs, h]
    · simp only [downloadPart003, h]
  · intro h
    refine ⟨?_, ?_, ?_, ?_, ?_⟩
    · simp only [downloadIndexJs, h]
    · simp only [downloadIndexJs, h]
      exact storeLookup_erase _ token
    · simp only [downloadIndexJs, h]
      intro kv hkv
      have : kv ∈ sweepExpired now store := (List.mem_filter.mp hkv).1
      exact mem_sweep_unexpired now store kv this
    · simp only [downloadPart003, h]
    · intro hexp
      simp only [downloadPart003, h]
      exact storeLookup_sweep now store token file h hexp

/-- C5 (witness): the amended theorem applied to a one-artifact store,
retrieved before expiry: the src/index.js variant deletes it, the
part_003 variant keeps it. -/
theorem c5_amended_witness :
    storeLookup (downloadIndexJs 10 "t" [("t", ⟨[1], "application/zip", "a.cbz", 4⟩)]).2 "t"
        = none ∧
    storeLookup (downloadPart003 10 "t" [("t", ⟨[1], "application/zip", "a.cbz", 4⟩)]).2 "t"
        = some ⟨[1], "application/zip", "a.cbz", 4⟩ :=
  ⟨((c5_amended 10 "t" [("t", ⟨[1], "application/zip", "a.cbz", 4⟩)]
      ⟨[1], "application/zip", "a.cbz", 4⟩).2.2 (by decide)).2.1,
   ((c5_amended 10 "t" [("t", ⟨[1], "application/zip", "a.cbz", 4⟩)]
      ⟨[1], "application/zip", "a.cbz", 4⟩).2.2 (by decide)).2.2.2.2 (by decide)⟩

theorem assembleFetched_error_of_mem (fetch : String → Except String (List Nat))
    (entries : List Entry)
    (h : ∃ e ∈ entries, ∃ msg, fetch e.url = .error msg) :
    ∃ msg, assembleFetched fetch entries = .error msg := by
  induction entries with
  | nil => simp at h
  | cons e rest ih =>
      obtain ⟨e0, he0, msg0, hf⟩ := h
      rcases List.mem_cons.mp he0 with rfl | hmem
      · refine ⟨msg0, ?_⟩
        unfold assembleFetched
        rw [List.mapM_cons, hf]
        rfl
      · obtain ⟨m, hm⟩ := ih ⟨e0, hmem, msg0, hf⟩
        unfold assembleFetched at hm ⊢
        rw [List.mapM_cons]
        cases hfe : fetch e.url with
        | error m2 =>
            exact ⟨m2, rfl⟩
        | ok b =>
            refine ⟨m, ?_⟩
            rw [hm]
            rfl

theorem runJobs_length (fetch : String → Except String (List Nat)) (now : Nat) :
    ∀ (store : FileStore) (jobs : List ExportRequest),
    (runJobs fetch now store jobs).1.length = jobs.length := by
  intro store jobs
  induction jobs generalizing store with
  | nil => rfl
  | cons j rest ih => simp [runJobs, ih]

/-- C4: when any fetch of a job body fails (for example one
mid-sequence page), the error is caught and turned into the terminal
failed status, the artifact store is left exactly as it was (nothing is
stored under the job), the queue keeps draining the remaining jobs from
the same store, and every queued job always produces exactly one
outcome (the queue never crashes or stalls). -/
theorem c4_error_caught_no_artifact (fetch : String → Except String (List Nat)) (now : Nat)
    (store : FileStore) (job : ExportRequest)
    (h : ∃ e ∈ generateCBZIndexJs job.pages job.covers, ∃ msg, fetch e.url = .error msg) :
    (∃ msg, runExportJob fetch now store job = (ExportStatus.failed msg, store)) ∧
    (∀ rest : List ExportRequest,
      (runJobs fetch now store (job :: rest)).1
        = (runExportJob fetch now store job).1 :: (runJobs fetch now store rest).1) ∧
    (∀ (store' : FileStore) (jobs : List ExportRequest),
      (runJobs fetch now store' jobs).1.length = jobs.length) := by
  obtain ⟨m, hm⟩ := assembleFetched_error_of_mem fetch _ h
  have hrun : runExportJob fetch now store job = (ExportStatus.failed m, store) := by
    unfold runExportJob
    rw [hm]
  refine ⟨⟨m, hrun⟩, ?_, runJobs_length fetch now⟩
  intro rest
  simp [runJobs, hrun]

/-- C4 (witness): a three-page job whose second fetch fails, run against
an empty store: the job ends failed and the store stays empty. -/
theorem c4_error_caught_no_artifact_witness :
    ∃ msg, runExportJob
      (fun u => if u = "u2" then Except.error "Failed to download: u2" else Except.ok [1])
      5 [] ⟨"e9", [⟨1, "u1"⟩, ⟨2, "u2"⟩, ⟨3, "u3"⟩], ⟨none, none, none⟩⟩
      = (ExportStatus.failed msg, []) :=
  (c4_error_caught_no_artifact
    (fun u => if u = "u2" then Except.error "Failed to download: u2" else Except.ok [1])
    5 [] ⟨"e9", [⟨1, "u1"⟩, ⟨2, "u2"⟩, ⟨3, "u3"⟩], ⟨none, none, none⟩⟩
    ⟨⟨"001_page_2.jpg", .page 2, "u2", 1⟩, by decide, "Failed to download: u2", rfl⟩).1

theorem liveAfter_ge (evs : List AsmEvent) : ∀ n k : Nat, n ≤ k →
    liveAfter n evs ≤ liveAfter k evs := by
  induction evs with
  | nil => intro n k h; exact h
  | cons e rest ih =>
      intro n k h
      cases e with
      | fetchStart i => exact ih (n + 1) (k + 1) (by omega)
      | appended i => exact ih (n - 1) (k - 1) (by omega)

theorem scheduleAux_live_le (k : Nat) : ∀ (i m : Nat),
    liveAfter 0 ((scheduleAux i k).take m) ≤ 1 := by
  induction k with
  | zero => intro i m; simp [scheduleAux, liveAfter]
  | succ k ih =>
      intro i m
      match m with
      | 0 => simp [liveAfter]
      | 1 => simp [scheduleAux, liveAfter]
      | Nat.succ (Nat.succ m') =>
          show liveAfter 0 (.fetchStart i :: .appended i :: (scheduleAux (i + 1) k).take m') ≤ 1
          show liveAfter ((0 + 1) - 1) ((scheduleAux (i + 1) k).take m') ≤ 1
          exact ih (i + 1) m'

theorem scheduleAux_getElem_even (k : Nat) : ∀ (i j : Nat),
    (scheduleAux i k)[2 * j]? = if j < k then some (.fetchStart (i + j)) else none := by
  induction k with
  | zero => intro i j; simp [scheduleAux]
  | succ k ih =>
      intro i j
      match j with
      | 0 => simp [scheduleAux]
      | Nat.succ j' =>
          have h2 : 2 * (j' + 1) = (2 * j') + 1 + 1 := by omega
          rw [h2, show scheduleAux i (k + 1)
                = .fetchStart i :: .appended i :: scheduleAux (i + 1) k from rfl,
            List.getElem?_cons_succ, List.getElem?_cons_succ, ih (i + 1) j']
          by_cases hj : j' < k
          · rw [if_pos hj, if_pos (by omega)]
            have h3 : i + 1 + j' = i + (j' + 1) := by omega
            rw [h3]
          · rw [if_neg hj, if_neg (by omega)]

theorem scheduleAux_getElem_odd (k : Nat) : ∀ (i j : Nat),
    (scheduleAux i k)[2 * j + 1]? = if j < k then some (.appended (i + j)) else none := by
  induction k with
  | zero => intro i j; simp [scheduleAux]
  | succ k ih =>
      intro i j
      match j with
      | 0 => simp [scheduleAux]
      | Nat.succ j' =>
          have h2 : 2 * (j' + 1) + 1 = (2 * j' + 1) + 1 + 1 := by omega
          rw [h2, show scheduleAux i (k + 1)
                = .fetchStart i :: .appended i :: scheduleAux (i + 1) k from rfl,
            List.getElem?_cons_succ, List.getElem?_cons_succ, ih (i + 1) j']
          by_cases hj : j' < k
          · rw [if_pos hj, if_pos (by omega)]
            have h3 : i + 1 + j' = i + (j' + 1) := by omega
            rw [h3]
          · rw [if_neg hj, if_neg (by omega)]

/-- C8: in the assembly loop over the part_002 emission, the events are
exactly fetch 0, append 0, fetch 1, append 1, ...: the event at
position 2i is the start of the fetch of entry i and the event at
position 2i + 1 is its append, so the fetch of entry i + 1 strictly
follows the append of entry i; and after any prefix of the run the
number of simultaneously live entry buffers is at most one. -/
theorem c8_one_buffer_live (pages : List PageItem) (covers : CoverSet) :
    (∀ m : Nat,
      liveBuffers ((assemblySchedule (generateCBZ002 pages covers)).take m) ≤ 1) ∧
    (∀ j : Nat, (assemblySchedule (generateCBZ002 pages covers))[2 * j]?
      = if j < (generateCBZ002 pages covers).length then some (.fetchStart j) else none) ∧
    (∀ j : Nat, (assemblySchedule (generateCBZ002 pages covers))[2 * j + 1]?
      = if j < (generateCBZ002 pages covers).length then some (.appended j) else none) := by
  refine ⟨?_, ?_, ?_⟩
  · intro m
    exact scheduleAux_live_le (generateCBZ002 pages covers).length 0 m
  · intro j
    have h := scheduleAux_getElem_even (generateCBZ002 pages covers).length 0 j
    simpa using h
  · intro j
    have h := scheduleAux_getElem_odd (generateCBZ002 pages covers).length 0 j
    simpa using h

theorem data_ne_nil_of_ne_empty {s : String} (h : s ≠ "") : s.data ≠ [] := by
  intro hd
  apply h
  have hs : s = ⟨s.data⟩ := rfl
  rw [hs, hd]

theorem charListCmp_le_zero : ∀ x y : List Char, charListCmp x y ≤ 0 ↔ ¬ y < x
  | [], [] => by
      constructor
      · intro _ h
        cases h
      · intro _
        simp [charListCmp]
  | [], b :: bs => by
      constructor
      · intro _ h
        cases h
      · intro _
        simp [charListCmp]
  | a :: as, [] => by
      constructor
      · intro h
        simp [charListCmp] at h
      · intro h
        exact absurd (List.nil_lt_cons a as) h
  | a :: as, b :: bs => by
      by_cases hab : a < b
      · constructor
        · intro _ h
          cases h with
          | cons h' => exact absurd hab (lt_irrefl _)
          | rel h' => exact absurd h' (lt_asymm hab)
        · intro _
          simp [charListCmp, hab]
      · by_cases hba : b < a
        · constructor
          · intro h
            simp [charListCmp, hab, hba] at h
          · intro h
            exact absurd (List.Lex.rel hba) h
        · have heq : a = b := le_antisymm (not_lt.mp hba) (not_lt.mp hab)
          subst heq
          have ih := charListCmp_le_zero as bs
          constructor
          · intro h hl
            have hcmp : charListCmp as bs ≤ 0 := by
              simpa [charListCmp, lt_irrefl] using h
            cases hl with
            | cons h' => exact (ih.mp hcmp) h'
            | rel h' => exact absurd h' (lt_irrefl _)
          · intro h
            have : ¬ bs < as := fun h' => h (List.Lex.cons h')
            simpa [charListCmp, lt_irrefl] using ih.mpr this

theorem localeCompareInt_le_zero (x y : String) :
    localeCompareInt x y ≤ 0 ↔ ¬ y.data < x.data :=
  charListCmp_le_zero x.data y.data

theorem suffix_branch_eq (x y : String) :
    (if x = "" ∧ y ≠ "" then (-1 : Int)
     else if x ≠ "" ∧ y = "" then 1
     else localeCompareInt x y) = localeCompareInt x y := by
  by_cases hx : x = ""
  · by_cases hy : y = ""
    · simp [hx, hy]
    · rcases hYdata : y.data with _ | ⟨c, cs⟩
      · exact absurd hYdata (data_ne_nil_of_ne_empty hy)
      · have hxd : x.data = [] := by rw [hx]
        simp [hx, hy, localeCompareInt, hxd, hYdata, charListCmp]
  · by_cases hy : y = ""
    · rcases hXdata : x.data with _ | ⟨c, cs⟩
      · exact absurd hXdata (data_ne_nil_of_ne_empty hx)
      · have hyd : y.data = [] := by rw [hy]
        simp [hx, hy, localeCompareInt, hyd, hXdata, charListCmp]
    · simp [hx, hy]

theorem panelCmp_eq (a b : Panel) :
    panelCmp a b = if a.panel_number ≠ b.panel_number
      then a.panel_number - b.panel_number
      else localeCompareInt (a.panel_suffix.getD "") (b.panel_suffix.getD "") := by
  unfold panelCmp
  by_cases h : a.panel_number = b.panel_number
  · simp only [h, ne_eq, not_true_eq_false, if_false]
    exact suffix_branch_eq _ _
  · simp only [h, ne_eq, not_false_eq_true, if_true]

theorem empty_le_string (x : String) : "" ≤ x := by
  refine not_lt.mp ?_
  intro hlt
  exact List.Lex.not_nil_right _ _ (String.lt_iff_toList_lt.mp hlt)

instance : IsTotal Panel panelLe where
  total a b := by
    unfold panelLe
    rw [panelCmp_eq, panelCmp_eq]
    by_cases h : a.panel_number = b.panel_number
    · rw [if_neg (by omega), if_neg (by omega)]
      by_cases hlt : (b.panel_suffix.getD "").data < (a.panel_suffix.getD "").data
      · right
        rw [localeCompareInt_le_zero]
        exact lt_asymm hlt
      · left
        rw [localeCompareInt_le_zero]
        exact hlt
    · rw [if_pos h, if_pos (fun e => h e.symm)]
      omega

instance : IsTrans Panel panelLe where
  trans a b c hab hbc := by
    unfold panelLe at *
    rw [panelCmp_eq] at hab hbc ⊢
    by_cases h1 : a.panel_number = b.panel_number
    · by_cases h2 : b.panel_number = c.panel_number
      · rw [if_neg (by omega)] at hab
        rw [if_neg (by omega)] at hbc
        rw [if_neg (by omega)]
        rw [localeCompareInt_le_zero] at hab hbc ⊢
        intro hca
        have h1' := not_lt.mp hab
        have h2' := not_lt.mp hbc
        exact absurd hca (not_lt.mpr (le_trans h1' h2'))
      · rw [if_neg (by omega)] at hab
        rw [if_pos (fun e => h2 e)] at hbc
        rw [if_pos (by omega)]
        omega
    · by_cases h2 : b.panel_number = c.panel_number
      · rw [if_pos h1] at hab
        rw [if_neg (by omega)] at hbc
        rw [if_pos (by omega)]
        omega
      · rw [if_pos h1] at hab
        rw [if_pos (fun e => h2 e)] at hbc
        rw [if_pos (by omega)]
        omega

/-- C9: `sortPanels` returns a permutation of its input ordered first by
panel_number ascending; among panels with equal panel_number, a panel
with a null or empty suffix precedes every panel with a non-empty
suffix, and non-empty suffixes are ordered lexicographically. -/
theorem c9_sortPanels_ordering (panels : List Panel) :
    (sortPanels panels).Perm panels ∧
    (sortPanels panels).Pairwise (fun a b =>
      a.panel_number < b.panel_number ∨
      (a.panel_number = b.panel_number ∧
        (a.panel_suffix.getD "" = "" ∨
         (a.panel_suffix.getD "" ≠ "" ∧ b.panel_suffix.getD "" ≠ "" ∧
          a.panel_suffix.getD "" ≤ b.panel_suffix.getD "")))) := by
  unfold sortPanels
  refine ⟨List.perm_insertionSort panelLe panels, ?_⟩
  have hs := List.sorted_insertionSort panelLe panels
  refine hs.imp ?_
  intro a b hab
  unfold panelLe at hab
  rw [panelCmp_eq] at hab
  by_cases hn : a.panel_number = b.panel_number
  · right
    refine ⟨hn, ?_⟩
    rw [if_neg (by omega)] at hab
    rw [localeCompareInt_le_zero] at hab
    have hle : a.panel_suffix.getD "" ≤ b.panel_suffix.getD "" :=
      not_lt.mp fun hlt => hab (String.lt_iff_toList_lt.mp hlt)
    by_cases ha : a.panel_suffix.getD "" = ""
    · exact Or.inl ha
    · refine Or.inr ⟨ha, ?_, hle⟩
      intro hb
      apply ha
      rw [hb] at hle
      exact le_antisymm hle (empty_le_string _)
  · left
    rw [if_pos hn] at hab
    omega

set_option maxRecDepth 10000 in
set_option maxHeartbeats 1000000 in
theorem pad3_repr_data : ∀ n, n < 1000 → (padStart3 (Nat.repr n)).data
    = [Nat.digitChar (n / 100 % 10), Nat.digitChar (n / 10 % 10), Nat.digitChar (n % 10)] := by
  decide

theorem digitChar_mono {a b : Nat} (ha : a < 10) (hb : b < 10) (h : a < b) :
    Nat.digitChar a < Nat.digitChar b := by
  interval_cases a <;> interval_cases b <;> decide

theorem lex_append_of_lt {A B : List Char} (r1 r2 : List Char)
    (hlen : A.length = B.length) (h : List.Lex (· < ·) A B) :
    List.Lex (· < ·) (A ++ r1) (B ++ r2) := by
  induction h with
  | nil => simp at hlen
  | @cons a l1 l2 hlex ih =>
      exact List.Lex.cons (ih (by simpa using hlen))
  | @rel a l1 b l2 hr =>
      exact List.Lex.rel hr

theorem pad3_lex_lt {i j : Nat} (hij : i < j) (hj : j < 1000) :
    List.Lex (· < ·) (padStart3 (Nat.repr i)).data (padStart3 (Nat.repr j)).data := by
  rw [pad3_repr_data i (by omega), pad3_repr_data j hj]
  rcases Nat.lt_trichotomy (i / 100 % 10) (j / 100 % 10) with h1 | h1 | h1
  · exact List.Lex.rel (digitChar_mono (by omega) (by omega) h1)
  · rw [h1]
    rcases Nat.lt_trichotomy (i / 10 % 10) (j / 10 % 10) with h2 | h2 | h2
    · exact List.Lex.cons (List.Lex.rel (digitChar_mono (by omega) (by omega) h2))
    · rw [h2]
      have h3 : i % 10 < j % 10 := by omega
      exact List.Lex.cons (List.Lex.cons
        (List.Lex.rel (digitChar_mono (by omega) (by omega) h3)))
    · omega
  · omega

theorem pad3_length (n : Nat) (hn : n < 1000) : (padStart3 (Nat.repr n)).data.length = 3 := by
  rw [pad3_repr_data n hn]
  rfl

theorem mkName002_data (k : Nat) (u : String) :
    (mkName002 k u).data
      = (padStart3 (Nat.repr k)).data ++ ("_".data ++ (u.data ++ ".png".data)) := by
  simp [mkName002, String.data_append, List.append_assoc]

theorem mkName002_lt {i j : Nat} (s t : String) (hij : i < j) (hj : j < 1000) :
    mkName002 i s < mkName002 j t := by
  rw [String.lt_iff_toList_lt]
  show List.Lex (· < ·) (mkName002 i s).data (mkName002 j t).data
  rw [mkName002_data, mkName002_data]
  refine lex_append_of_lt _ _ ?_ (pad3_lex_lt hij hj)
  rw [pad3_length i (by omega), pad3_length j hj]

theorem leadingSeg_name_shape (covers : CoverSet) (i : Nat) :
    ∀ e ∈ (leadingSeg covers i).1, ∃ slot, e.name = mkName002 e.index slot := by
  by_cases h : jsTruthy covers.comic_cover <;> simp [leadingSeg, h]

theorem chapterSeg_name_shape (covers : CoverSet) (i : Nat) :
    ∀ e ∈ (chapterSeg covers i).1, ∃ slot, e.name = mkName002 e.index slot := by
  by_cases h : jsTruthy covers.chapter_cover <;> simp [chapterSeg, h]

theorem page0Seg_name_shape (pages : List PageItem) (covers : CoverSet) (i : Nat) :
    ∀ e ∈ (page0Seg pages covers i).1, ∃ slot, e.name = mkName002 e.index slot := by
  unfold page0Seg
  cases pages.find? (fun p => p.page_number == 0) with
  | none => simp
  | some p =>
      by_cases h : p.image_url ≠ "" ∧ jsTruthy covers.chapter_cover = false <;> simp [h]

theorem backSeg_name_shape (covers : CoverSet) (i : Nat) :
    ∀ e ∈ backSeg covers i, ∃ slot, e.name = mkName002 e.index slot := by
  by_cases h : jsTruthy covers.back_cover <;> simp [backSeg, h]

theorem generateCBZ002_name_shape (pages : List PageItem) (covers : CoverSet) :
    ∀ e ∈ generateCBZ002 pages covers, ∃ slot, e.name = mkName002 e.index slot := by
  intro e he
  simp only [generateCBZ002, List.mem_append] at he
  rcases he with ((((h1 | h2) | h3) | h4) | h5)
  · exact leadingSeg_name_shape covers 0 e h1
  · exact chapterSeg_name_shape covers _ e h2
  · exact page0Seg_name_shape pages covers _ e h3
  · exact pagesSeg_name_shape _ _ e h4
  · exact backSeg_name_shape covers _ e h5

theorem generateCBZ002_index_at (pages : List PageItem) (covers : CoverSet) (r : Nat)
    (hr : r < (generateCBZ002 pages covers).length) :
    ((generateCBZ002 pages covers).get ⟨r, hr⟩).index = r := by
  have hmap := generateCBZ002_map_index pages covers
  have h1 : ((generateCBZ002 pages covers).map Entry.index).get ⟨r, by simpa using hr⟩
      = ((generateCBZ002 pages covers).get ⟨r, hr⟩).index := by
    simp [List.get_eq_getElem, List.getElem_map]
  have h2 : ((generateCBZ002 pages covers).map Entry.index).get ⟨r, by simpa using hr⟩
      = r := by
    simp only [List.get_eq_getElem]
    rw [List.getElem_of_eq hmap]
    exact List.getElem_range r _
  rw [← h1, h2]

/-- C10: in every archive emitted by the part_002 `generateCBZ`, the
member at emission position k carries the zero-padded counter value k
(indices are 0, 1, 2, ... with no gaps or repeats), and for archives of
fewer than 1000 members the member names are strictly increasing in
lexicographic order along the emission, so lexicographic name order
equals emission order. -/
theorem c10_names_lexicographic (pages : List PageItem) (covers : CoverSet) :
    (generateCBZ002 pages covers).map Entry.index
      = List.range (generateCBZ002 pages covers).length ∧
    ((generateCBZ002 pages covers).length < 1000 →
      ((generateCBZ002 pages covers).map Entry.name).Pairwise (· < ·)) := by
  refine ⟨generateCBZ002_map_index pages covers, ?_⟩
  intro hlen
  rw [List.pairwise_iff_get]
  intro p q hpq
  have hp : (p : Nat) < (generateCBZ002 pages covers).length := by
    simpa using p.isLt
  have hq : (q : Nat) < (generateCBZ002 pages covers).length := by
    simpa using q.isLt
  obtain ⟨sp, hsp⟩ := generateCBZ002_name_shape pages covers
    ((generateCBZ002 pages covers).get ⟨p, hp⟩) (List.get_mem _ _ hp)
  obtain ⟨sq, hsq⟩ := generateCBZ002_name_shape pages covers
    ((generateCBZ002 pages covers).get ⟨q, hq⟩) (List.get_mem _ _ hq)
  have hgp : ((generateCBZ002 pages covers).map Entry.name).get p
      = ((generateCBZ002 pages covers).get ⟨p, hp⟩).name := by
    simp [List.get_eq_getElem, List.getElem_map]
  have hgq : ((generateCBZ002 pages covers).map Entry.name).get q
      = ((generateCBZ002 pages covers).get ⟨q, hq⟩).name := by
    simp [List.get_eq_getElem, List.getElem_map]
  rw [hgp, hgq, hsp, hsq, generateCBZ002_index_at pages covers p hp,
    generateCBZ002_index_at pages covers q hq]
  exact mkName002_lt sp sq (by exact_mod_cast hpq) (by omega)

/-- C10 (witness): the theorem applied to a one-page job with a leading
cover: a two-member archive, well under 1000 members. -/
theorem c10_names_lexicographic_witness :
    ((generateCBZ002 [⟨1, "u"⟩] ⟨some "c", none, none⟩).map Entry.name).Pairwise (· < ·) :=
  (c10_names_lexicographic [⟨1, "u"⟩] ⟨some "c", none, none⟩).2 (by decide)
